import Mathlib

set_option maxRecDepth 100000

/-!
# Verification of the ordered-dictionary container (ordereddict.go)

A shallow embedding of the `ordereddict` Go package: an insertion-order
preserving dictionary with soft deletes (tombstones), optional
case-insensitive key lookup, lazy compaction, JSON-like scalar decoding
rules and an order-preserving JSON encoder.

Values of the Go `interface{}` slot are modelled by the inductive `Value`.
The Go pointer `&Deleted` (the package-level tombstone marker) is modelled
by the dedicated constructor `Value.deletedPtr`; pointer identity of a
nested `*Dict` value is modelled by heap addresses (`Value.vdictRef`)
together with an explicit heap.  Go's `map[string]int` is modelled by an
association list with unique keys (`ainsert` replaces in place, `aerase`
removes), which preserves the observable map semantics (lookup, size).
-/

/-- Model of the Go `interface{}` value universe used by the package.
`vfloat` keeps the numeric literal (the claims are about which branch of
the decoder wins, not about floating-point arithmetic).  JSON arrays are
omitted from the modelled universe: no claim concerns them. -/
inductive Value where
  | null
  | vbool (b : Bool)
  | uint (n : Nat)
  | vint (i : Int)
  | vfloat (lit : String)
  | vstr (s : String)
  | vtime (year month day hour minute second : Nat) (frac : String) (tzMin : Int)
  | vdictRef (a : Nat)
  | deletedPtr
  | badValue
deriving DecidableEq

/-- Models `Item` from ordereddict.go:22 (fields lowercased: `Value` clashes with
the `Value` type in Lean). -/
structure Item where
  key : String
  value : Value
deriving DecidableEq

/-- Models `Item.IsDeleted` (ordereddict.go:27): pointer-equality with `&Deleted`. -/
def isDeleted (it : Item) : Bool := it.value == Value.deletedPtr

/-- The `Dict` state (ordereddict.go:35): backing array `items`, key→index
map `store`, case flag, default value (`Value.null` models the Go `nil`
interface, i.e. "no default configured"). The mutex is not modelled:
every operation is lock-held and serialized. -/
structure Dict where
  items : List Item
  store : List (String × Nat)
  case_insensitive : Bool
  default_value : Value
deriving DecidableEq

/-- Association-list lookup, modelling Go map read `m[k]`. -/
def alookup : List (String × Nat) → String → Option Nat
  | [], _ => none
  | (k, v) :: rest, key => if k == key then some v else alookup rest key

/-- Association-list insert, modelling Go map write `m[k] = v`
(replaces an existing binding, otherwise adds one). -/
def ainsert : List (String × Nat) → String → Nat → List (String × Nat)
  | [], key, v => [(key, v)]
  | (k, v0) :: rest, key, v =>
      if k == key then (key, v) :: rest else (k, v0) :: ainsert rest key v

/-- Association-list erase, modelling Go `delete(m, k)`. -/
def aerase : List (String × Nat) → String → List (String × Nat)
  | [], _ => []
  | (k, v0) :: rest, key => if k == key then rest else (k, v0) :: aerase rest key

/-- Models `NewDict` (ordereddict.go:49). -/
def newDict : Dict :=
  { items := [], store := [], case_insensitive := false, default_value := Value.null }

/-- ASCII lowercase for one character (models Go `strings.ToLower`; agrees
with it on ASCII input, which is all the claims use). -/
def charLower (c : Char) : Char :=
  if 65 ≤ c.toNat ∧ c.toNat ≤ 90 then Char.ofNat (c.toNat + 32) else c

/-- Lowercase a string, character by character. -/
def strLower (s : String) : String := ⟨s.data.map charLower⟩

/-- Key normalization used by `getKey` (ordereddict.go:67): lowercase the
key iff the store is case-insensitive. -/
def normKey (ci : Bool) (k : String) : String := if ci then strLower k else k

namespace Dict

/-- Models `Dict.getKey` (ordereddict.go:67). -/
def getKey (d : Dict) (k : String) : String := normKey d.case_insensitive k

/-- Overwrite the value at index `idx` keeping the literal key, modelling
the Go statement `self.items[idx].Value = v`.  Out-of-range indices leave
the list unchanged (unreachable from well-formed states; Go would panic). -/
def setValueAt (items : List Item) (idx : Nat) (v : Value) : List Item :=
  match items[idx]? with
  | some it => items.set idx { key := it.key, value := v }
  | none => items

/-- One step of the compaction rebuild loop (ordereddict.go:194-206):
skip deleted items, otherwise record `new_store[norm] = len(new_items)`
and append a copy of the item. -/
def compactStep (ci : Bool) (acc : List (String × Nat) × List Item) (it : Item) :
    List (String × Nat) × List Item :=
  if isDeleted it then acc
  else (ainsert acc.1 (normKey ci it.key) acc.2.length, acc.2 ++ [it])

/-- Models `maybeCompact` (ordereddict.go:185): rebuild `items`/`store` keeping
only live items, but only when at least 10 tombstones are outstanding
(`len(items) - len(store) >= 10`; Nat subtraction agrees with the Go `int`
comparison because a negative Go difference and a truncated-to-0 Nat
difference are both `< 10`). -/
def maybeCompact (d : Dict) : Dict :=
  if d.items.length - d.store.length < 10 then d
  else
    let acc := d.items.foldl (compactStep d.case_insensitive) ([], [])
    { d with store := acc.1, items := acc.2 }

/-- The internal `set` (ordereddict.go:166): tombstone a live entry for the
normalized key if present, append a fresh entry with the *literal* key at
the end, point the index at the new position, then check compaction.
Also the insertion path used by the JSON decoder (ordereddict.go:469). -/
def set (d : Dict) (k : String) (v : Value) : Dict :=
  let norm := d.getKey k
  let items1 :=
    match alookup d.store norm with
    | some idx => setValueAt d.items idx Value.deletedPtr
    | none => d.items
  maybeCompact
    { d with store := ainsert d.store norm items1.length, items := items1 ++ [{ key := k, value := v }] }

/-- Models `Update` (ordereddict.go:137): overwrite in place when present,
otherwise append like `set` on a fresh key. -/
def Update (d : Dict) (k : String) (v : Value) : Dict :=
  let norm := d.getKey k
  match alookup d.store norm with
  | some idx => { d with items := setValueAt d.items idx v }
  | none =>
      maybeCompact
        { d with store := ainsert d.store norm d.items.length, items := d.items ++ [{ key := k, value := v }] }

/-- Models `Delete` (ordereddict.go:123).  Faithful to the source: the lookup uses
the *normalized* key (`self.getKey(key)`, line 127) but the map removal
uses the *raw* key (`delete(self.store, key)`, line 129). -/
def Delete (d : Dict) (k : String) : Dict :=
  match alookup d.store (d.getKey k) with
  | some idx =>
      { d with store := aerase d.store k, items := setValueAt d.items idx Value.deletedPtr }
  | none => d

/-- Models `Get` (ordereddict.go:219): on a miss return the configured default (if
any) with `found = false`; on a hit return the stored value (even the
tombstone marker, if the index is stale) with `found = true`. -/
def Get (d : Dict) (k : String) : Value × Bool :=
  match alookup d.store (d.getKey k) with
  | none =>
      if d.default_value != Value.null then (d.default_value, false) else (Value.null, false)
  | some idx =>
      match d.items[idx]? with
      | some it => (it.value, true)
      | none => (Value.null, true)

/-- Models `Len` (ordereddict.go:212): the size of the index map. -/
def Len (d : Dict) : Nat := d.store.length

/-- Models `Items` (ordereddict.go:335): live snapshot in insertion order. -/
def Items (d : Dict) : List Item := d.items.filter (fun it => !(isDeleted it))

/-- Models `Keys` (ordereddict.go:319). -/
def Keys (d : Dict) : List String := (d.Items).map (fun it => it.key)

/-- Models `Values` (ordereddict.go:351). -/
def Values (d : Dict) : List Value := (d.Items).map (fun it => it.value)

/-- Models `Copy` (ordereddict.go:111): shallow clone of all four fields. -/
def Copy (d : Dict) : Dict :=
  { items := d.items, store := d.store, case_insensitive := d.case_insensitive,
    default_value := d.default_value }

/-- Models `SetCaseInsensitive` (ordereddict.go:95): a fresh case-insensitive
store populated by re-inserting every live item of the receiver. -/
def SetCaseInsensitive (d : Dict) : Dict :=
  (d.Items).foldl (fun acc it => acc.set it.key it.value)
    { items := [], store := [], case_insensitive := true, default_value := Value.null }

/-- Models `MergeFrom` (ordereddict.go:74): `Set` every live item of `other`. -/
def MergeFrom (d other : Dict) : Dict :=
  (other.Items).foldl (fun acc it => acc.set it.key it.value) d

end Dict

/-- The insertion loop of `parseobject` (ordereddict.go:440-470) reduced to
its effect on the store: each decoded key/value pair is inserted through
the internal reordering `set` path, in input order. -/
def parseobjectPairs (d : Dict) (pairs : List (String × Value)) : Dict :=
  pairs.foldl (fun acc p => acc.set p.1 p.2) d

/-- Number of live (non-tombstoned) entries in the backing array. -/
def liveCount (d : Dict) : Nat := (d.Items).length

/-- The index-consistency part of the claimed invariant: every index
binding points in-range at a live entry whose key normalizes to the
binding's key. -/
def indexOk (d : Dict) : Bool :=
  d.store.all (fun p =>
    match d.items[p.2]? with
    | some it => (normKey d.case_insensitive it.key == p.1) && !(isDeleted it)
    | none => false)

/-- The full claimed invariant: index consistency plus
`len(live entries) == len(index)`. -/
def invariantOk (d : Dict) : Bool := indexOk d && (liveCount d == d.store.length)

-- Concrete states used by the counterexamples below.

/-- The empty case-insensitive store (what `NewDict().SetCaseInsensitive()`
returns). -/
def ciEmpty : Dict := newDict.SetCaseInsensitive

/-- Case-insensitive store after `Set("Foo", 1)` then `Delete("FOO")`:
exercises the raw-key `delete` of ordereddict.go:129. -/
def ciDeleted : Dict := (ciEmpty.set "Foo" (Value.uint 1)).Delete "FOO"

/-! ## Scalar decoding (`handledelim`, ordereddict.go:514-571)

The token-stream plumbing (`json.Decoder`) is an external collaborator;
what belongs to this package is `handledelim`'s treatment of string and
number tokens, modelled below.  Go indexes bytes where Lean indexes
characters; the two coincide on ASCII input, which is all the claims use.
-/

/-- Digit values of a character list: `some v` iff nonempty and all ASCII
digits (the digit scan shared by the `strconv` integer parsers). -/
def digitsVal : List Char → Option Nat
  | [] => none
  | cs => go cs 0
where
  go : List Char → Nat → Option Nat
    | [], acc => some acc
    | c :: rest, acc =>
        if c.isDigit then go rest (acc * 10 + (c.toNat - 48)) else none

/-- Models `strconv.ParseUint(s, 10, 64)` as used at ordereddict.go:552: digits
only (no sign), value must fit 64 bits; any failure (syntax or range) is
`none`, matching `err != nil` in Go. -/
def parseUint64 (s : String) : Option Nat :=
  match digitsVal s.data with
  | some v => if v < 2 ^ 64 then some v else none
  | none => none

/-- Models `strconv.ParseInt(s, 10, 64)` as used at ordereddict.go:557: optional
sign, digits, value within the signed 64-bit range. -/
def parseInt64 (s : String) : Option Int :=
  match s.data with
  | [] => none
  | c :: rest =>
      if c == '+' then
        (digitsVal rest).bind (fun v => if v ≤ 2 ^ 63 - 1 then some (v : Int) else none)
      else if c == '-' then
        (digitsVal rest).bind (fun v => if v ≤ 2 ^ 63 then some (-(v : Int)) else none)
      else
        (digitsVal (c :: rest)).bind (fun v => if v ≤ 2 ^ 63 - 1 then some (v : Int) else none)

/-- Count a leading run of ASCII digits, returning the count and the rest. -/
def spanDigits : List Char → Nat × List Char
  | [] => (0, [])
  | c :: rest =>
      if c.isDigit then
        let (n, r) := spanDigits rest
        (n + 1, r)
      else (0, c :: rest)

/-- Exponent suffix acceptable to `strconv.ParseFloat`: empty, or
`e`/`E`, optional sign, one or more digits, consuming the whole rest. -/
def expOk : List Char → Bool
  | [] => true
  | c :: rest =>
      if c == 'e' || c == 'E' then
        let rest2 :=
          match rest with
          | s :: r2 => if s == '+' || s == '-' then r2 else rest
          | [] => rest
        let (n, r3) := spanDigits rest2
        decide (0 < n) && r3.isEmpty
      else false

/-- Decimal-syntax acceptance of `strconv.ParseFloat(s, 64)` as used at
ordereddict.go:563: optional sign, then either `inf`/`infinity`/`nan`
(case-insensitive) or digits with optional fraction and exponent where the
mantissa holds at least one digit.  Hexadecimal floats, digit-separating
underscores and overflow-to-infinity range errors are not modelled; no
claim depends on them. -/
def floatSyntaxOk (s : String) : Bool :=
  let cs :=
    match s.data with
    | c :: rest => if c == '+' || c == '-' then rest else s.data
    | [] => []
  let low := cs.map charLower
  if low == "inf".data || low == "infinity".data || low == "nan".data then true
  else
    let (n1, r1) := spanDigits cs
    match r1 with
    | '.' :: r2 =>
        let (n2, r3) := spanDigits r2
        decide (0 < n1 + n2) && expOk r3
    | r2 => decide (0 < n1) && expOk r2

/-- The `json.Number` branch of `handledelim` (ordereddict.go:548-568):
try unsigned 64-bit, then signed 64-bit, then 64-bit float; the first
successful parse wins; if all fail the token is a decode error (`none`). -/
def handleNumberToken (s : String) : Option Value :=
  match parseUint64 s with
  | some n => some (Value.uint n)
  | none =>
      match parseInt64 s with
      | some i => some (Value.vint i)
      | none =>
          if floatSyntaxOk s then some (Value.vfloat s) else none

/-- Exactly `n` leading ASCII digits, returning their value and the rest. -/
def fixedDigits : Nat → List Char → Option (Nat × List Char)
  | 0, cs => some (0, cs)
  | _ + 1, [] => none
  | n + 1, c :: rest =>
      if c.isDigit then
        (fixedDigits n rest).map (fun p => ((c.toNat - 48) * 10 ^ n + p.1, p.2))
      else none

/-- Day count of a month, Gregorian rules (Go validates the day field). -/
def daysInMonth (year month : Nat) : Nat :=
  if month == 2 then
    if year % 4 == 0 && (year % 100 != 0 || year % 400 == 0) then 29 else 28
  else if month == 4 || month == 6 || month == 9 || month == 11 then 30
  else 31

/-- Optional fractional-second part: `.` followed by at least one digit
(Go's `Parse` accepts a fraction after the seconds even though the RFC3339
layout has none). Returns the digit string and the rest. -/
def fracPart : List Char → String × List Char
  | '.' :: rest =>
      let (n, r) := spanDigits rest
      if 0 < n then (⟨rest.take n⟩, r) else ("", '.' :: rest)
  | cs => ("", cs)

/-- Timezone suffix of the RFC3339 layout: `Z` or `±hh:mm`, as minutes
east of UTC. -/
def tzPart : List Char → Option (Int × List Char)
  | 'Z' :: rest => some (0, rest)
  | c :: rest =>
      if c == '+' || c == '-' then
        match fixedDigits 2 rest with
        | some (hh, r1) =>
            match r1 with
            | ':' :: r2 =>
                match fixedDigits 2 r2 with
                | some (mm, r3) =>
                    let mins : Int := (hh : Int) * 60 + (mm : Int)
                    some (if c == '-' then -mins else mins, r3)
                | none => none
            | _ => none
        | none => none
      else none
  | [] => none

/-- Models `time.Parse(time.RFC3339, s)` as used at ordereddict.go:540: the
layout `2006-01-02T15:04:05Z07:00` with Go's range checks on month, day,
hour, minute and second, tolerating a fractional second, and requiring the
whole string to be consumed. -/
def rfc3339Parse (s : String) : Option Value :=
  match fixedDigits 4 s.data with
  | none => none
  | some (year, r1) =>
      match r1 with
      | '-' :: r2 =>
          match fixedDigits 2 r2 with
          | none => none
          | some (month, r3) =>
              match r3 with
              | '-' :: r4 =>
                  match fixedDigits 2 r4 with
                  | none => none
                  | some (day, r5) =>
                      match r5 with
                      | 'T' :: r6 =>
                          match fixedDigits 2 r6 with
                          | none => none
                          | some (hour, r7) =>
                              match r7 with
                              | ':' :: r8 =>
                                  match fixedDigits 2 r8 with
                                  | none => none
                                  | some (minute, r9) =>
                                      match r9 with
                                      | ':' :: r10 =>
                                          match fixedDigits 2 r10 with
                                          | none => none
                                          | some (second, r11) =>
                                              let (frac, r12) := fracPart r11
                                              match tzPart r12 with
                                              | none => none
                                              | some (tz, r13) =>
                                                  if r13.isEmpty
                                                      && 1 ≤ month && month ≤ 12
                                                      && 1 ≤ day
                                                      && day ≤ daysInMonth year month
                                                      && hour ≤ 23 && minute ≤ 59
                                                      && second ≤ 59 then
                                                    some (Value.vtime year month day
                                                      hour minute second frac tz)
                                                  else none
                                      | _ => none
                              | _ => none
                      | _ => none
              | _ => none
      | _ => none

/-- The string branch of `handledelim` (ordereddict.go:536-546): a string
of length at least 20 whose character at offset 10 is `T` is attempted as
an RFC3339 timestamp; on success the decoded value is the timestamp, on
failure (and for every other string) it stays the literal string. -/
def handleStringToken (t : String) : Value :=
  if 20 ≤ t.length && t.data[10]? == some 'T' then
    match rfc3339Parse t with
    | some ts => ts
    | none => Value.vstr t
  else Value.vstr t


/-! ## The JSON encoder (`MarshalJSON`, ordereddict.go:574-607)

Pointer identity of nested `*Dict` values (needed by the cycle guard at
ordereddict.go:586-589) is modelled with an explicit heap: a value
`Value.vdictRef a` is a pointer to the dictionary stored at address `a`.
The encoder is written with explicit fuel; a run that returns
`MRes.fuelOut` models a computation that has not finished within that
fuel, so any `MRes.ok` result at a concrete fuel witnesses termination.
Go's `json.Marshal` on plain values (an external collaborator) is modelled
by `jsonQuote` and the scalar cases of `marshalValue`; a value the
marshaler rejects is `Value.badValue` (`MRes.err`).
-/

/-- A heap of dictionaries, giving `*Dict` pointers an identity. -/
def Heap := List (Nat × Dict)

/-- Heap lookup. -/
def hlookup : Heap → Nat → Option Dict
  | [], _ => none
  | (a, d) :: rest, addr => if a == addr then some d else hlookup rest addr

/-- Result of a fuelled encoder run. -/
inductive MRes where
  | fuelOut
  | err
  | ok (s : String)
deriving DecidableEq

/-- Minimal JSON string escaping (quote, backslash, the common control
characters), standing in for the external marshaler's string encoder. -/
def escChar (c : Char) : String :=
  if c == '"' then "\\\""
  else if c == '\\' then "\\\\"
  else if c == '\n' then "\\n"
  else if c == '\t' then "\\t"
  else if c == '\r' then "\\r"
  else String.mk [c]

/-- Quote a string as a JSON string literal. -/
def jsonQuote (s : String) : String :=
  "\"" ++ String.join (s.data.map escChar) ++ "\""

/-- Zero-padded decimal rendering. -/
def padNum (width n : Nat) : String :=
  let digits := toString n
  ⟨List.replicate (width - digits.length) '0'⟩ ++ digits

/-- RFC3339 rendering of a timestamp value (how `json.Marshal` encodes a
`time.Time`); used only to make `marshalValue` total over `Value`. -/
def renderTime (year month day hour minute second : Nat) (frac : String) (tzMin : Int) : String :=
  padNum 4 year ++ "-" ++ padNum 2 month ++ "-" ++ padNum 2 day ++ "T"
    ++ padNum 2 hour ++ ":" ++ padNum 2 minute ++ ":" ++ padNum 2 second
    ++ (if frac == "" then "" else "." ++ frac)
    ++ (if tzMin == 0 then "Z"
        else (if tzMin < 0 then "-" else "+")
          ++ padNum 2 (tzMin.natAbs / 60) ++ ":" ++ padNum 2 (tzMin.natAbs % 60))

mutual
/-- Models `json.Marshal` of one value: scalars render directly, `&Deleted`
renders as `1` (a pointer to the int 1), a `*Dict` re-enters
`marshalDict` (its `MarshalJSON` method), an unmarshalable value errors. -/
def marshalValue (heap : Heap) : Nat → Value → MRes
  | 0, _ => MRes.fuelOut
  | _ + 1, Value.null => MRes.ok "null"
  | _ + 1, Value.vbool b => MRes.ok (if b then "true" else "false")
  | _ + 1, Value.uint n => MRes.ok (toString n)
  | _ + 1, Value.vint i => MRes.ok (toString i)
  | _ + 1, Value.vfloat lit => MRes.ok lit
  | _ + 1, Value.vstr s => MRes.ok (jsonQuote s)
  | _ + 1, Value.vtime y mo d h mi sec f tz => MRes.ok (jsonQuote (renderTime y mo d h mi sec f tz))
  | fuel + 1, Value.vdictRef a =>
      match hlookup heap a with
      | some d => marshalDict heap fuel d a
      | none => MRes.err
  | _ + 1, Value.deletedPtr => MRes.ok "1"
  | _ + 1, Value.badValue => MRes.err

/-- The body of `MarshalJSON` (ordereddict.go:574-607): open brace, the
pair loop over the live snapshot, then `if len(self.items) > 0` drop the
last byte (intended: the trailing comma), close brace. -/
def marshalDict (heap : Heap) : Nat → Dict → Nat → MRes
  | 0, _, _ => MRes.fuelOut
  | fuel + 1, d, selfAddr =>
      match marshalItems heap fuel d.Items selfAddr "\x7b" with
      | MRes.ok buf =>
          let buf2 := if 0 < d.items.length then buf.dropRight 1 else buf
          MRes.ok (buf2 ++ "\x7d")
      | r => r

/-- The pair loop (ordereddict.go:577-601): skip a value that is the
encoding store itself (the cycle guard), otherwise emit
`key:value,`, degrading a failed value encoding to `null,`. -/
def marshalItems (heap : Heap) : Nat → List Item → Nat → String → MRes
  | 0, _, _, _ => MRes.fuelOut
  | _ + 1, [], _, buf => MRes.ok buf
  | fuel + 1, it :: rest, selfAddr, buf =>
      if it.value == Value.vdictRef selfAddr then marshalItems heap fuel rest selfAddr buf
      else
        match marshalValue heap fuel it.value with
        | MRes.ok s => marshalItems heap fuel rest selfAddr (buf ++ jsonQuote it.key ++ ":" ++ s ++ ",")
        | MRes.err => marshalItems heap fuel rest selfAddr (buf ++ jsonQuote it.key ++ ":null,")
        | MRes.fuelOut => MRes.fuelOut
end

/-! ## A small JSON syntax checker

Used to state that an encoder output is (or is not) a syntactically valid
JSON document.  `jsonDocValid s` parses one JSON value and requires the
whole string to be consumed. -/

/-- The `\x7b` character. -/
def obrace : Char := Char.ofNat 123

/-- The `\x7d` character. -/
def cbrace : Char := Char.ofNat 125

/-- Skip JSON whitespace. -/
def jSkipWs : List Char → List Char
  | [] => []
  | c :: r => if c == ' ' || c == '\n' || c == '\t' || c == '\r' then jSkipWs r else c :: r

/-- Consume the rest of a JSON string literal (after the opening quote). -/
def jStrRest : List Char → Option (List Char)
  | [] => none
  | '"' :: r => some r
  | '\\' :: [] => none
  | '\\' :: _ :: r => jStrRest r
  | _ :: r => jStrRest r

/-- Consume a JSON number starting at the given characters (sign already
allowed by the caller). -/
def jNumRest (cs : List Char) : Option (List Char) :=
  let (n1, r1) := spanDigits cs
  if n1 == 0 then none
  else
    match r1 with
    | '.' :: r2 =>
        let (n2, r3) := spanDigits r2
        if n2 == 0 then none else jExpRest r3
    | r2 => jExpRest r2
where
  -- Optional exponent; unlike `expOk` this does not require the end of
  -- input, it just consumes.
  jExpRest : List Char → Option (List Char)
    | [] => some []
    | c :: rest =>
        if c == 'e' || c == 'E' then
          let rest2 :=
            match rest with
            | s :: r2 => if s == '+' || s == '-' then r2 else rest
            | [] => rest
          let (n, r3) := spanDigits rest2
          if n == 0 then none else some r3
        else some (c :: rest)

mutual
/-- Parse one JSON value, returning the unconsumed rest. -/
def jVal : Nat → List Char → Option (List Char)
  | 0, _ => none
  | fuel + 1, cs =>
      match jSkipWs cs with
      | [] => none
      | c :: r =>
          if c == '"' then jStrRest r
          else if c == obrace then jMembers fuel (jSkipWs r) true
          else if c == '[' then jElems fuel (jSkipWs r) true
          else if c == '-' then jNumRest r
          else if c.isDigit then jNumRest (c :: r)
          else if (c :: r).take 4 == "true".data then some (r.drop 3)
          else if (c :: r).take 5 == "false".data then some (r.drop 4)
          else if (c :: r).take 4 == "null".data then some (r.drop 3)
          else none

/-- Parse the members of an object after the opening brace (whitespace
already skipped); `first` is true before any member has been read. -/
def jMembers : Nat → List Char → Bool → Option (List Char)
  | 0, _, _ => none
  | fuel + 1, cs, first =>
      match cs with
      | [] => none
      | c :: r =>
          if c == cbrace then if first then some r else none
          else if c == '"' then
            match jStrRest r with
            | none => none
            | some r2 =>
                match jSkipWs r2 with
                | ':' :: r3 =>
                    match jVal fuel r3 with
                    | none => none
                    | some r4 =>
                        match jSkipWs r4 with
                        | ',' :: r5 => jMembers fuel (jSkipWs r5) false
                        | c2 :: r5 => if c2 == cbrace then some r5 else none
                        | [] => none
                | _ => none
          else none

/-- Parse the elements of an array after the opening bracket. -/
def jElems : Nat → List Char → Bool → Option (List Char)
  | 0, _, _ => none
  | fuel + 1, cs, first =>
      match cs with
      | [] => none
      | c :: r =>
          if c == ']' then if first then some r else none
          else
            match jVal fuel (c :: r) with
            | none => none
            | some r2 =>
                match jSkipWs r2 with
                | ',' :: r3 => jElems fuel (jSkipWs r3) false
                | c2 :: r3 => if c2 == ']' then some r3 else none
                | [] => none
end

/-- A syntactically valid JSON document: one value, whole input consumed. -/
def jsonDocValid (s : String) : Bool :=
  match jVal (s.length + 1) s.data with
  | some rest => (jSkipWs rest).isEmpty
  | none => false


/-- Store whose single entry has been tombstoned:
`Set("a", 1)` then `Delete("a")` (case-sensitive, so the delete works). -/
def allTombstoned : Dict := (newDict.set "a" (Value.uint 1)).Delete "a"

/-- Twelve keys inserted in order `k00 .. k11`. -/
def keys12 : List String :=
  ["k00", "k01", "k02", "k03", "k04", "k05", "k06", "k07", "k08", "k09", "k10", "k11"]

/-- Store with the twelve keys set. -/
def d12 : Dict := keys12.foldl (fun d k => d.set k (Value.uint 0)) newDict

/-- State `d12` after deleting the first ten keys: ten tombstones outstanding,
two live entries, and no compaction has run (`Delete` never compacts). -/
def d12del : Dict := (keys12.take 10).foldl (fun d k => d.Delete k) d12

/-- A store holding itself as its only value: on the heap at address 0. -/
def selfOnly : Dict := newDict.set "self" (Value.vdictRef 0)

/-- Heap for `selfOnly`. -/
def heapSelfOnly : Heap := [(0, selfOnly)]

/-- A store holding a plain pair and itself (heap address 7). -/
def selfAndPair : Dict := (newDict.set "a" (Value.uint 1)).set "self" (Value.vdictRef 7)

/-- Heap for `selfAndPair`. -/
def heapSelfAndPair : Heap := [(7, selfAndPair)]

/-- Case-insensitive store after `Set("Foo", 1)` then `Set("FOO", 2)`. -/
def ciTwoCasings : Dict := (ciEmpty.set "Foo" (Value.uint 1)).set "FOO" (Value.uint 2)

/-- State `d12del` after `Set("z", &Deleted)`: the append sees ten outstanding
tombstones, compaction runs, and the fresh (`IsDeleted`) entry is dropped
together with its index binding. -/
def zombie : Dict := d12del.set "z" Value.deletedPtr

/-! ## Helper lemmas -/

theorem alookup_ainsert_self (m : List (String × Nat)) (k : String) (v : Nat) :
    alookup (ainsert m k v) k = some v := by
  induction m with
  | nil => simp [ainsert, alookup]
  | cons p rest ih =>
    obtain ⟨k0, v0⟩ := p
    by_cases h : (k0 == k) = true
    · simp [ainsert, h, alookup]
    · simp [ainsert, h, alookup, ih]

theorem ainsert_length_none (m : List (String × Nat)) (k : String) (v : Nat)
    (h : alookup m k = none) : (ainsert m k v).length = m.length + 1 := by
  induction m with
  | nil => simp [ainsert]
  | cons p rest ih =>
    obtain ⟨k0, v0⟩ := p
    by_cases hk : (k0 == k) = true
    · simp [alookup, hk] at h
    · simp [alookup, hk] at h
      simp [ainsert, hk, ih h]

theorem ainsert_length_some (m : List (String × Nat)) (k : String) (v i : Nat)
    (h : alookup m k = some i) : (ainsert m k v).length = m.length := by
  induction m with
  | nil => simp [alookup] at h
  | cons p rest ih =>
    obtain ⟨k0, v0⟩ := p
    by_cases hk : (k0 == k) = true
    · simp [ainsert, hk]
    · simp [alookup, hk] at h
      simp [ainsert, hk, ih h]

theorem setValueAt_length (items : List Item) (idx : Nat) (v : Value) :
    (Dict.setValueAt items idx v).length = items.length := by
  unfold Dict.setValueAt
  cases h : items[idx]? <;> simp

/-- Effect of `set` on a key that is absent from the index, when fewer than ten
tombstones are outstanding: pure append, no compaction. -/
theorem set_fresh_eq (d : Dict) (k : String) (v : Value)
    (h : alookup d.store (d.getKey k) = none)
    (hlen : d.items.length - d.store.length < 10) :
    d.set k v = { d with store := ainsert d.store (d.getKey k) d.items.length,
                         items := d.items ++ [{ key := k, value := v }] } := by
  simp only [Dict.set, Dict.maybeCompact, h, List.length_append, List.length_singleton,
    ainsert_length_none d.store (d.getKey k) d.items.length h, Nat.add_sub_add_right]
  simp [hlen]

/-- Effect of `set` on a key whose index entry is `idx`, when the append stays under
the compaction threshold: tombstone `idx`, append, repoint the index. -/
theorem set_hit_eq (d : Dict) (k : String) (v : Value) (idx : Nat)
    (h : alookup d.store (d.getKey k) = some idx)
    (hlen : d.items.length + 1 - d.store.length < 10) :
    d.set k v = { d with store := ainsert d.store (d.getKey k) d.items.length,
                         items := Dict.setValueAt d.items idx Value.deletedPtr
                           ++ [{ key := k, value := v }] } := by
  simp only [Dict.set, Dict.maybeCompact, h, List.length_append, List.length_singleton,
    setValueAt_length, ainsert_length_some d.store (d.getKey k) d.items.length idx h]
  simp [hlen]

/-! ## The claims -/

/-- C1: the claim says `Delete(k)` removes k's *normalized* key from the
index for case-insensitive stores too.  The code evaluates otherwise: the
lookup normalizes (`self.getKey(key)`, ordereddict.go:127) but the map
removal uses the raw key (`delete(self.store, key)`, ordereddict.go:129),
so after `Set("Foo",1); Delete("FOO")` on a case-insensitive store the
index binding `"foo" -> 0` survives while the entry is tombstoned: a
subsequent `Get("FOO")` *hits* and returns the tombstone marker `&Deleted`
with `found = true`, and `Len()` stays 1. -/
theorem delete_raw_key_evaluation :
    ciDeleted.Get "FOO" = (Value.deletedPtr, true)
      ∧ ciDeleted.Len = 1
      ∧ ciDeleted.store = [("foo", 0)]
      ∧ ciDeleted.items = [{ key := "Foo", value := Value.deletedPtr }] := by decide

/-- C2: the claimed invariant (index bindings point at live entries, live
count equals index size) is violated right after the public operation
`Delete` on a case-insensitive store, by the raw-key removal of
ordereddict.go:129.  The contrast conjuncts show that the invariant does
hold after the other small operation sequences involved, isolating the
break to that delete. -/
theorem invariant_violated_after_delete :
    invariantOk ciDeleted = false
      ∧ liveCount ciDeleted = 0
      ∧ ciDeleted.store.length = 1
      ∧ invariantOk (ciEmpty.set "Foo" (Value.uint 1)) = true
      ∧ invariantOk (newDict.set "a" (Value.uint 1)) = true
      ∧ invariantOk ((newDict.set "a" (Value.uint 1)).Delete "a") = true
      ∧ invariantOk ((ciEmpty.set "Foo" (Value.uint 1)).Delete "foo") = true := by decide

/-- C3: `MarshalJSON` does *not* always produce a valid JSON document.
When the backing array is non-empty but every pair is skipped (here: the
only entry is tombstoned), the unconditional `if len(self.items) > 0`
truncation (ordereddict.go:602) removes the opening brace instead of a
trailing comma and the output is the single byte `\x7d`, which the JSON
grammar rejects — contradicting the doc comment of `String()`
(ordereddict.go:378, "always result in a valid JSON document").  An
actually-empty store does produce the valid `\x7b\x7d`. -/
theorem marshal_all_tombstoned_invalid :
    marshalDict [] 5 allTombstoned 0 = MRes.ok "\x7d"
      ∧ jsonDocValid "\x7d" = false
      ∧ marshalDict [] 5 newDict 0 = MRes.ok "\x7b\x7d"
      ∧ jsonDocValid "\x7b\x7d" = true := by decide

/-- C4 counterexample: on a case-insensitive store,
`Set("Foo",1); Set("FOO",2)` makes `Keys()` report `"FOO"` — the casing of
the *latest* `Set` — not the first-ever casing `"Foo"` the claim states:
the reordering `set` path (ordereddict.go:176) appends a fresh entry
carrying the literal key of the current call. -/
theorem first_casing_counterexample :
    ciTwoCasings.Keys = ["FOO"] ∧ ciTwoCasings.Keys ≠ ["Foo"] := by decide

/-- C4 amended: on a case-insensitive store lookups fold case
(`Set("Foo",1)` then `Get("FOO")` hits with 1), and `Keys()` reports the
literal casing of the most recent `Set` for the key; only `Update`, which
overwrites the value in place, preserves the prior casing. -/
theorem case_fold_last_casing :
    (ciEmpty.set "Foo" (Value.uint 1)).Get "FOO" = (Value.uint 1, true)
      ∧ (ciEmpty.set "Foo" (Value.uint 1)).Keys = ["Foo"]
      ∧ ciTwoCasings.Keys = ["FOO"]
      ∧ ciTwoCasings.Get "foo" = (Value.uint 2, true)
      ∧ (ciTwoCasings.Update "fOo" (Value.uint 3)).Keys = ["FOO"]
      ∧ (ciTwoCasings.Update "fOo" (Value.uint 3)).Get "FOO" = (Value.uint 3, true) := by decide

/-- C5 counterexample: compaction only runs after an append (`set` and the
fresh-key branch of `Update` call `maybeCompact`; `Delete` never does,
ordereddict.go:123-134), so ten deletes after twelve inserts leave ten
tombstones outstanding at an observation point — refuting the claimed
bound of at most nine tombstones at *any* observation point. -/
theorem tombstone_bound_counterexample :
    d12del.items.length - d12del.store.length = 10
      ∧ (d12del.items.filter isDeleted).length = 10
      ∧ ¬(d12del.items.length - d12del.store.length ≤ 9) := by decide

/-- C5 amended: compaction is triggered by the first *append* at which at
least ten tombstones are outstanding; it keeps the live entries in their
relative order and resets the tombstone count to zero.  Between appends,
deletes alone can leave ten or more tombstones outstanding. -/
theorem compaction_on_append :
    (d12del.set "new" (Value.uint 1)).items.length
        - (d12del.set "new" (Value.uint 1)).store.length = 0
      ∧ ((d12del.set "new" (Value.uint 1)).items.filter isDeleted).length = 0
      ∧ (d12del.set "new" (Value.uint 1)).items.length = 3
      ∧ d12del.Keys = ["k10", "k11"]
      ∧ (d12del.set "new" (Value.uint 1)).Keys = ["k10", "k11", "new"] := by decide

/-- C6: setting a key that already has a live entry — whether through
`Set` or through the decoder's insertion loop (`parseobjectPairs`, the
same internal `set` path, ordereddict.go:469) — tombstones the prior entry
in place and appends a fresh entry at the end, so
`Set(k,v1); Set(other,v2); Set(k,v3)` yields `Keys() == [other, k]`. -/
theorem set_reinsertion_reorders (k other : String) (v1 v2 v3 : Value)
    (hk : k ≠ other) (h2 : v2 ≠ Value.deletedPtr) (h3 : v3 ≠ Value.deletedPtr) :
    (((newDict.set k v1).set other v2).set k v3).items
        = [{ key := k, value := Value.deletedPtr }, { key := other, value := v2 },
           { key := k, value := v3 }]
      ∧ (((newDict.set k v1).set other v2).set k v3).Keys = [other, k]
      ∧ parseobjectPairs newDict [(k, v1), (other, v2), (k, v3)]
          = ((newDict.set k v1).set other v2).set k v3 := by
  have hko : (k == other) = false := beq_eq_false_iff_ne.mpr hk
  have e1 : newDict.set k v1
      = { items := [{ key := k, value := v1 }], store := [(k, 0)],
          case_insensitive := false, default_value := Value.null } := rfl
  have e2 : (newDict.set k v1).set other v2
      = { items := [{ key := k, value := v1 }, { key := other, value := v2 }],
          store := [(k, 0), (other, 1)],
          case_insensitive := false, default_value := Value.null } := by
    rw [e1, set_fresh_eq _ _ _ (by simp [Dict.getKey, normKey, alookup, hko]) (by simp)]
    simp [Dict.getKey, normKey, ainsert, hko]
  have e3 : ((newDict.set k v1).set other v2).set k v3
      = { items := [{ key := k, value := Value.deletedPtr }, { key := other, value := v2 },
            { key := k, value := v3 }],
          store := [(k, 2), (other, 1)],
          case_insensitive := false, default_value := Value.null } := by
    rw [e2, set_hit_eq _ _ _ 0 (by simp [Dict.getKey, normKey, alookup]) (by simp)]
    simp [Dict.getKey, normKey, Dict.setValueAt, ainsert, hko]
  have hb2 : (v2 == Value.deletedPtr) = false := beq_eq_false_iff_ne.mpr h2
  have hb3 : (v3 == Value.deletedPtr) = false := beq_eq_false_iff_ne.mpr h3
  refine ⟨by rw [e3], by rw [e3]; simp [Dict.Keys, Dict.Items, isDeleted, hb2, hb3], ?_⟩
  simp [parseobjectPairs]

/-- C6 witness at concrete inputs. -/
theorem set_reinsertion_reorders_witness :
    (((newDict.set "a" (Value.uint 1)).set "b" (Value.uint 2)).set "a" (Value.uint 3)).Keys
      = ["b", "a"] :=
  (set_reinsertion_reorders "a" "b" (Value.uint 1) (Value.uint 2) (Value.uint 3)
    (by decide) (by decide) (by decide)).2.1

/-- C7: the `json.Number` branch tries unsigned 64-bit, then signed
64-bit, then float, first success winning (ordereddict.go:548-568): the
maximal unsigned numeral decodes unsigned, `-5` signed, `3.14` float, a
small numeral that fits both integer kinds decodes unsigned, and in
general an unsigned parse preempts the later branches. -/
theorem numeric_widening_order :
    handleNumberToken "18446744073709551615" = some (Value.uint 18446744073709551615)
      ∧ handleNumberToken "-5" = some (Value.vint (-5))
      ∧ handleNumberToken "3.14" = some (Value.vfloat "3.14")
      ∧ handleNumberToken "5" = some (Value.uint 5)
      ∧ ∀ (s : String) (n : Nat), parseUint64 s = some n
          → handleNumberToken s = some (Value.uint n) := by
  refine ⟨by decide, by decide, by decide, by decide, ?_⟩
  intro s n h
  unfold handleNumberToken
  rw [h]

/-- C7 witness: the universally quantified conjunct applied at `"7"`. -/
theorem numeric_widening_order_witness :
    handleNumberToken "7" = some (Value.uint 7) :=
  numeric_widening_order.2.2.2.2 "7" 7 (by decide)

/-- C8: a string of length at least 20 whose character at offset 10 is
`T` is attempted as an RFC3339 timestamp (success: a timestamp value;
failure: the literal string), and every other string decodes as the
literal string (ordereddict.go:536-546). -/
theorem timestamp_heuristic :
    handleStringToken "2023-01-02T03:04:05Z" = Value.vtime 2023 1 2 3 4 5 "" 0
      ∧ handleStringToken "not-a-date-but-20-chars!!" = Value.vstr "not-a-date-but-20-chars!!"
      ∧ handleStringToken "AAAAAAAAAATAAAAAAAAA" = Value.vstr "AAAAAAAAAATAAAAAAAAA"
      ∧ ∀ s : String, (s.length < 20 ∨ s.data[10]? ≠ some 'T')
          → handleStringToken s = Value.vstr s := by
  refine ⟨by decide, by decide, by decide, ?_⟩
  intro s hs
  unfold handleStringToken
  rcases hs with h | h
  · rw [if_neg]
    simp [Nat.not_le.mpr h]
  · rw [if_neg]
    simp [h]

/-- C8 witness: the universally quantified conjunct applied at `"hi"`. -/
theorem timestamp_heuristic_witness :
    handleStringToken "hi" = Value.vstr "hi" :=
  timestamp_heuristic.2.2.2 "hi" (Or.inl (by decide))

/-- C9: encoding a store holding itself as a direct value terminates (the
fuelled encoder finishes within finite fuel, never returning an error) and
omits the self-referencing pair (the identity guard of
ordereddict.go:586-589): with another live pair present the output is the
valid document containing only that pair. -/
theorem self_reference_marshal_safe :
    marshalDict heapSelfOnly 5 selfOnly 0 = MRes.ok "\x7d"
      ∧ marshalDict heapSelfAndPair 5 selfAndPair 7 = MRes.ok "\x7b\"a\":1\x7d"
      ∧ jsonDocValid "\x7b\"a\":1\x7d" = true := by decide

/-- C10 counterexample: when `Set(k, &Deleted)` is the append at which ten
tombstones are outstanding, `maybeCompact` runs and drops the fresh entry
(it satisfies `IsDeleted`) together with its index binding
(ordereddict.go:194-206) — so `Get(k)` *misses* and `Len()` does not count
the key, refuting the claim's unconditional `(value, true)` / `Len`
behavior. -/
theorem deleted_value_compaction_counterexample :
    zombie.Get "z" = (Value.null, false)
      ∧ zombie.Len = 2
      ∧ zombie.Keys = ["k10", "k11"] := by decide

/-- C10 amended: storing `&Deleted` as a value under a fresh key hides the
entry from `Keys`/`Items`/`Values` while `Get` still hits with the stored
marker and `Len` still counts it — *provided* the append leaves fewer than
ten tombstones outstanding, so that no compaction expunges the entry. -/
theorem deleted_value_hidden (d : Dict) (k : String)
    (hfresh : alookup d.store (d.getKey k) = none)
    (hlen : d.items.length - d.store.length < 10) :
    (d.set k Value.deletedPtr).Get k = (Value.deletedPtr, true)
      ∧ (d.set k Value.deletedPtr).Len = d.Len + 1
      ∧ (d.set k Value.deletedPtr).Keys = d.Keys
      ∧ (d.set k Value.deletedPtr).Items = d.Items
      ∧ (d.set k Value.deletedPtr).Values = d.Values := by
  rw [set_fresh_eq _ _ _ hfresh hlen]
  refine ⟨?_, ?_, ?_, ?_, ?_⟩
  · simp only [Dict.Get, Dict.getKey, alookup_ainsert_self]
    simp [List.getElem?_concat_length]
  · simp [Dict.Len, ainsert_length_none d.store (d.getKey k) d.items.length hfresh]
  · simp [Dict.Keys, Dict.Items, List.filter_append, isDeleted]
  · simp [Dict.Items, List.filter_append, isDeleted]
  · simp [Dict.Values, Dict.Items, List.filter_append, isDeleted]

/-- C10 amended, witness at the empty store and key `"k"`. -/
theorem deleted_value_hidden_witness :
    (newDict.set "k" Value.deletedPtr).Get "k" = (Value.deletedPtr, true)
      ∧ (newDict.set "k" Value.deletedPtr).Len = newDict.Len + 1
      ∧ (newDict.set "k" Value.deletedPtr).Keys = newDict.Keys
      ∧ (newDict.set "k" Value.deletedPtr).Items = newDict.Items
      ∧ (newDict.set "k" Value.deletedPtr).Values = newDict.Values :=
  deleted_value_hidden newDict "k" (by decide) (by decide)
